import Mathlib

/-
  Verification development for the twittra repository (Rust).

  Shallow embedding conventions:
  - Uuid values are modelled as Nat.
  - Timestamps (OffsetDateTime) are modelled as Int seconds; durations from
    the time crate become second counts.
  - Floating point scores (f64) are modelled as exact rationals; every
    comparison the claims mention is far from the rounding error of f64.
  - Fallible repository and upstream calls are modelled with Option and
    Except; the database is an explicit record of table rows.
-/

namespace Twittra

/-- Seconds in the given number of hours, mirroring Duration.hours of the
time crate at second granularity. -/
def hoursToSeconds (n : Int) : Int := n * 3600

/-- Seconds in the given number of minutes, mirroring Duration.minutes. -/
def minutesToSeconds (n : Int) : Int := n * 60

/-- Translation of the free function should_refresh in
crates/domain/src/crawler.rs: the age bucket picks the minimal re-read
interval and the function answers whether the time since the last crawl
reached it. -/
def should_refresh (created_at last_crawled_at now : Int) : Bool :=
  let age := now - created_at
  let interval :=
    if age < hoursToSeconds 3 then minutesToSeconds 1
    else if age < hoursToSeconds 12 then minutesToSeconds 10
    else minutesToSeconds 30
  decide (now - last_crawled_at ≥ interval)

/-! ### Domain model (crates/domain/src/model.rs) -/

/-- Translation of the Reaction struct: a stamp by a user on a message,
with a count. The composite key of the reactions table is
(message_id, stamp_id, user_id); inside a Message the message id is
implicit. -/
structure Reaction where
  stamp_id : Nat
  user_id : Nat
  stamp_count : Int
deriving DecidableEq, Repr

/-- Lexicographic order on Reaction in field declaration order, as the
derived PartialOrd and Ord instances of the Rust struct define it. -/
def reactionLe (x y : Reaction) : Prop :=
  x.stamp_id < y.stamp_id ∨
    (x.stamp_id = y.stamp_id ∧
      (x.user_id < y.user_id ∨ (x.user_id = y.user_id ∧ x.stamp_count ≤ y.stamp_count)))

instance : DecidableRel reactionLe := fun x y => by unfold reactionLe; infer_instance

instance : IsTotal Reaction reactionLe := ⟨by intro x y; unfold reactionLe; omega⟩

instance : IsTrans Reaction reactionLe := ⟨by intro x y z; unfold reactionLe; omega⟩

instance : IsAntisymm Reaction reactionLe := ⟨by
  intro x y hx hy
  unfold reactionLe at hx hy
  have : x.stamp_id = y.stamp_id ∧ x.user_id = y.user_id ∧ x.stamp_count = y.stamp_count := by
    omega
  cases x; cases y; simp_all⟩

/-- Translation of the Message struct of the domain model. The struct has
no last_crawled_at field: that column lives only in the messages table. -/
structure Message where
  id : Nat
  user_id : Nat
  channel_id : Nat
  content : String
  created_at : Int
  updated_at : Int
  reactions : List Reaction
deriving DecidableEq, Repr

/-- Translation of the manual PartialEq impl for Message: all scalar
fields are compared, and the reaction lists are compared after sorting
both by the derived order, so that reaction order is irrelevant. -/
def messageEq (a b : Message) : Prop :=
  a.id = b.id ∧ a.user_id = b.user_id ∧ a.channel_id = b.channel_id ∧
  a.content = b.content ∧ a.created_at = b.created_at ∧ a.updated_at = b.updated_at ∧
  a.reactions.insertionSort reactionLe = b.reactions.insertionSort reactionLe

instance : DecidableRel messageEq := fun a b => by unfold messageEq; infer_instance

/-- Equality on Message as claim C5 words it: scalar fields match and the
reaction multisets agree regardless of order. -/
def claimMessageEq (a b : Message) : Prop :=
  a.id = b.id ∧ a.user_id = b.user_id ∧ a.channel_id = b.channel_id ∧
  a.content = b.content ∧ a.created_at = b.created_at ∧ a.updated_at = b.updated_at ∧
  List.Perm a.reactions b.reactions

/-- Sorting by the derived reaction order is a normal form: two reaction
lists sort equal exactly when they are permutations of each other. -/
theorem insertionSort_eq_iff_perm (l1 l2 : List Reaction) :
    l1.insertionSort reactionLe = l2.insertionSort reactionLe ↔ List.Perm l1 l2 := by
  constructor
  · intro h
    exact (List.perm_insertionSort reactionLe l1).symm.trans
      (h ▸ List.perm_insertionSort reactionLe l2)
  · intro h
    exact List.eq_of_perm_of_sorted
      ((List.perm_insertionSort reactionLe l1).trans
        (h.trans (List.perm_insertionSort reactionLe l2).symm))
      (List.sorted_insertionSort reactionLe l1)
      (List.sorted_insertionSort reactionLe l2)

/-- Source equality and the claim wording of the equality agree. -/
theorem messageEq_iff_claimMessageEq (a b : Message) :
    messageEq a b ↔ claimMessageEq a b := by
  unfold messageEq claimMessageEq
  rw [insertionSort_eq_iff_perm]

/-- Translation of the User struct. -/
structure User where
  id : Nat
  handle : String
  display_name : String
deriving DecidableEq, Repr

/-- Translation of the Stamp struct. -/
structure Stamp where
  id : Nat
  name : String
deriving DecidableEq, Repr

/-- Translation of MessageListItem: a message enriched with the author
when the users table has it. -/
structure MessageListItem where
  id : Nat
  user_id : Nat
  user : Option User
  channel_id : Nat
  content : String
  created_at : Int
  updated_at : Int
  reactions : List Reaction
deriving DecidableEq, Repr

/-! ### Database state (tables of the MariaDB repositories) -/

/-- Row of the messages table; unlike the domain Message it carries
last_crawled_at. -/
structure MessageRec where
  id : Nat
  user_id : Nat
  channel_id : Nat
  content : String
  created_at : Int
  updated_at : Int
  last_crawled_at : Int
deriving DecidableEq, Repr

/-- Row of the reactions table, keyed by (message_id, stamp_id, user_id). -/
structure ReactionRec where
  message_id : Nat
  stamp_id : Nat
  user_id : Nat
  stamp_count : Int
deriving DecidableEq, Repr

/-- State of all tables the claims touch. Primary keys make row ids unique
in the real database; the list model keeps rows in insertion order. -/
structure Db where
  messages : List MessageRec
  reactions : List ReactionRec
  read_messages : List (Nat × Nat)
  users : List User
  user_tokens : List (Nat × String)
  stamps : List Stamp
deriving DecidableEq, Repr

/-! ### Message repository (crates/infra/src/repository/mariadb/message.rs) -/

/-- Reaction rows of one message, in table order. -/
def reactionsFor (db : Db) (mid : Nat) : List ReactionRec :=
  db.reactions.filter (fun r => r.message_id == mid)

/-- View of a reactions table row as a domain Reaction. -/
def ReactionRec.toReaction (r : ReactionRec) : Reaction :=
  ⟨r.stamp_id, r.user_id, r.stamp_count⟩

/-- Translation of MariaDbMessageRepository.find_by_id: load the row and
attach its reaction rows. -/
def find_by_id (db : Db) (mid : Nat) : Option Message :=
  (db.messages.find? (fun row => row.id == mid)).map (fun row =>
    { id := row.id, user_id := row.user_id, channel_id := row.channel_id,
      content := row.content, created_at := row.created_at, updated_at := row.updated_at,
      reactions := (reactionsFor db mid).map ReactionRec.toReaction })

/-- Modelled from the spec: the migration files defining the messages
table are not under src, so the value the schema gives last_crawled_at on
a fresh INSERT (the insert column list omits it) is taken from the spec,
which mandates that last_crawled_at be set to now on every upsert,
including the first insert of a new id. -/
def insertedLastCrawledAt (now : Int) : Int := now

/-- Upsert of one row of the messages table, translating the statement
INSERT INTO messages (id, user_id, channel_id, content, created_at,
updated_at) VALUES (...) ON DUPLICATE KEY UPDATE content=VALUE(content),
updated_at=VALUE(updated_at), last_crawled_at=NOW(6). On a duplicate id
only content, updated_at and last_crawled_at change; user_id, channel_id
and created_at of the stored row are untouched. The primary key keeps ids
unique, so updating the first match is exact. -/
def saveMessageRow : List MessageRec → Message → Int → List MessageRec
  | [], m, now =>
    [⟨m.id, m.user_id, m.channel_id, m.content, m.created_at, m.updated_at,
      insertedLastCrawledAt now⟩]
  | row :: rest, m, now =>
    if row.id = m.id then
      { row with content := m.content, updated_at := m.updated_at,
                 last_crawled_at := now } :: rest
    else row :: saveMessageRow rest m now

/-- Translation of MariaDbMessageRepository.update_reactions: nothing on
an empty id list, otherwise delete every reaction row of the listed
messages and insert the given rows. -/
def updateReactions (reactions : List ReactionRec) (mids : List Nat)
    (fresh : List ReactionRec) : List ReactionRec :=
  if mids.isEmpty then reactions
  else reactions.filter (fun r => decide (r.message_id ∉ mids)) ++ fresh

/-- Reaction rows a message contributes on save, tagged with its id. -/
def tagReactions (m : Message) : List ReactionRec :=
  m.reactions.map (fun r => ⟨m.id, r.stamp_id, r.user_id, r.stamp_count⟩)

/-- Translation of MariaDbMessageRepository.save: upsert the row and
replace its reaction set inside one transaction. -/
def save (db : Db) (m : Message) (now : Int) : Db :=
  { db with
    messages := saveMessageRow db.messages m now,
    reactions := updateReactions db.reactions [m.id] (tagReactions m) }

/-- Translation of save_batch: no-op on empty input, otherwise upsert all
rows and replace the reaction sets of all the saved ids. -/
def save_batch (db : Db) (msgs : List Message) (now : Int) : Db :=
  if msgs.isEmpty then db
  else
    { db with
      messages := msgs.foldl (fun rows m => saveMessageRow rows m now) db.messages,
      reactions := updateReactions db.reactions (msgs.map Message.id)
        (msgs.flatMap tagReactions) }

/-- Translation of remove_reaction: delete the single triple if present. -/
def remove_reaction (db : Db) (mid sid uid : Nat) : Db :=
  { db with
    reactions := db.reactions.filter (fun r =>
      decide (¬ (r.message_id = mid ∧ r.stamp_id = sid ∧ r.user_id = uid))) }

/-- Translation of find_latest_message_time: MAX(created_at), NULL when
the table is empty. -/
def find_latest_message_time (db : Db) : Option Int :=
  (db.messages.map MessageRec.created_at).max?

/-- Translation of find_sync_candidates: id, created_at and
last_crawled_at of every message created within the last 24 hours. -/
def find_sync_candidates (db : Db) (now : Int) : List (Nat × Int × Int) :=
  (db.messages.filter (fun row => decide (now - hoursToSeconds 24 ≤ row.created_at))).map
    (fun row => (row.id, row.created_at, row.last_crawled_at))

/-! ### Lemmas about save -/

theorem saveMessageRow_find?_some (rows : List MessageRec) (m : Message) (now : Int)
    (r : MessageRec) (h : rows.find? (fun row => row.id == m.id) = some r) :
    (saveMessageRow rows m now).find? (fun row => row.id == m.id) =
      some { r with content := m.content, updated_at := m.updated_at,
                    last_crawled_at := now } := by
  induction rows with
  | nil => simp [List.find?] at h
  | cons row rest ih =>
    by_cases hid : row.id = m.id
    · rw [List.find?_cons_of_pos _ (by simp [hid])] at h
      injection h with h
      subst h
      simp only [saveMessageRow, if_pos hid]
      rw [List.find?_cons_of_pos _ (by simp [hid])]
    · rw [List.find?_cons_of_neg _ (by simp [hid])] at h
      simp only [saveMessageRow, if_neg hid]
      rw [List.find?_cons_of_neg _ (by simp [hid])]
      exact ih h

theorem saveMessageRow_find?_none (rows : List MessageRec) (m : Message) (now : Int)
    (h : rows.find? (fun row => row.id == m.id) = none) :
    saveMessageRow rows m now =
      rows ++ [⟨m.id, m.user_id, m.channel_id, m.content, m.created_at, m.updated_at,
                insertedLastCrawledAt now⟩] := by
  induction rows with
  | nil => simp [saveMessageRow]
  | cons row rest ih =>
    by_cases hid : row.id = m.id
    · rw [List.find?_cons_of_pos _ (by simp [hid])] at h
      cases h
    · rw [List.find?_cons_of_neg _ (by simp [hid])] at h
      simp [saveMessageRow, hid, ih h]

theorem filter_tagReactions_self (m : Message) :
    (tagReactions m).filter (fun r => r.message_id == m.id) = tagReactions m := by
  unfold tagReactions
  induction m.reactions with
  | nil => simp
  | cons r rest ih => simpa using ih

theorem filter_tagReactions_other (m : Message) (mid : Nat) (h : mid ≠ m.id) :
    (tagReactions m).filter (fun r => r.message_id == mid) = [] := by
  unfold tagReactions
  induction m.reactions with
  | nil => simp
  | cons r rest ih => simpa [Ne.symm h] using ih

/-- Replacement, seen through reactionsFor: after save, the reaction rows
of the saved id are exactly the tagged reactions of the message. -/
theorem reactionsFor_save_self (db : Db) (m : Message) (now : Int) :
    reactionsFor (save db m now) m.id = tagReactions m := by
  have hnil : (db.reactions.filter (fun r => decide (r.message_id ∉ [m.id]))).filter
      (fun r => r.message_id == m.id) = [] := by
    induction db.reactions with
    | nil => simp
    | cons r rest ih =>
      by_cases hr : r.message_id = m.id
      · simpa [hr] using ih
      · simpa [hr] using ih
  simp [reactionsFor, save, updateReactions, List.filter_append, hnil,
    filter_tagReactions_self]

/-- Frame: saving one message leaves reaction rows of other ids alone. -/
theorem reactionsFor_save_other (db : Db) (m : Message) (now : Int) (mid : Nat)
    (h : mid ≠ m.id) :
    reactionsFor (save db m now) mid = reactionsFor db mid := by
  show List.filter (fun r => r.message_id == mid)
      (updateReactions db.reactions [m.id] (tagReactions m)) = reactionsFor db mid
  rw [show updateReactions db.reactions [m.id] (tagReactions m) =
      db.reactions.filter (fun r => decide (r.message_id ∉ [m.id])) ++ tagReactions m from rfl,
    List.filter_append, filter_tagReactions_other m mid h, List.append_nil,
    List.filter_filter]
  apply List.filter_congr
  intro a _
  by_cases ha : a.message_id = mid
  · simp [ha]
    exact h
  · simp [ha]

/-- Tagging then reading back gives the original reaction list. -/
theorem tagReactions_toReaction (m : Message) :
    (tagReactions m).map ReactionRec.toReaction = m.reactions := by
  unfold tagReactions ReactionRec.toReaction
  induction m.reactions with
  | nil => simp
  | cons r rest ih => simpa using ih

/-- Interval function written from the words of claim C6: one minute below
three hours of age, ten minutes when the age is between 3 and 12 hours
(the phrase covers 12 hours itself, because the last bucket is reserved for
ages strictly greater than 12 hours), thirty minutes above. -/
def claimInterval (age : Int) : Int :=
  if age < hoursToSeconds 3 then minutesToSeconds 1
  else if age ≤ hoursToSeconds 12 then minutesToSeconds 10
  else minutesToSeconds 30

/-- Refresh predicate written from the words of claim C6, to be compared
against the source translation should_refresh. -/
def claimShouldRefresh (created_at last_crawled_at now : Int) : Bool :=
  decide (now - last_crawled_at ≥ claimInterval (now - created_at))

/-! ### Claim C1: semantics of save -/

/-- Empty database used by the concrete examples. -/
def emptyDb : Db := ⟨[], [], [], [], [], []⟩

/-- First saved message of the C1 example. -/
def c1MsgOld : Message := ⟨1, 10, 20, "a", 0, 0, []⟩

/-- Second saved message of the C1 example: same id, different channel_id
and content. -/
def c1MsgNew : Message := ⟨1, 10, 21, "b", 0, 0, []⟩

/-- C1, counterexample. The claim says every scalar field of the stored
row is overwritten by save, but the ON DUPLICATE KEY UPDATE clause only
rewrites content and updated_at: after saving a message with the same id
and a different channel_id, the stored channel_id is still the old one. -/
theorem C1_counterexample :
    (save (save emptyDb c1MsgOld 5) c1MsgNew 9).messages.map MessageRec.channel_id =
      [c1MsgOld.channel_id] ∧ c1MsgOld.channel_id ≠ c1MsgNew.channel_id := by
  exact ⟨rfl, by decide⟩

/-- C1, amended. For every message m, save upserts by m.id: on a duplicate
id the stored row keeps its id, user_id, channel_id and created_at while
content and updated_at take the values of m and last_crawled_at becomes
now; on a fresh id the full row is inserted with last_crawled_at set to
now (via the schema default, modelled from the spec); the reaction rows
of m.id are replaced to be exactly the reactions of m with no leakage
from the previous set, and reaction rows of other messages are
untouched. -/
theorem C1_amended (db : Db) (m : Message) (now : Int) :
    (∀ r, db.messages.find? (fun row => row.id == m.id) = some r →
      (save db m now).messages.find? (fun row => row.id == m.id) =
        some { r with content := m.content, updated_at := m.updated_at,
                      last_crawled_at := now }) ∧
    (db.messages.find? (fun row => row.id == m.id) = none →
      (save db m now).messages = db.messages ++
        [⟨m.id, m.user_id, m.channel_id, m.content, m.created_at, m.updated_at,
          insertedLastCrawledAt now⟩]) ∧
    reactionsFor (save db m now) m.id = tagReactions m ∧
    (∀ msg, find_by_id (save db m now) m.id = some msg → msg.reactions = m.reactions) ∧
    (∀ mid, mid ≠ m.id → reactionsFor (save db m now) mid = reactionsFor db mid) := by
  refine ⟨fun r h => saveMessageRow_find?_some db.messages m now r h,
    fun h => saveMessageRow_find?_none db.messages m now h,
    reactionsFor_save_self db m now,
    fun msg hm => ?_,
    fun mid h => reactionsFor_save_other db m now mid h⟩
  unfold find_by_id at hm
  rcases Option.map_eq_some'.1 hm with ⟨row, hrow, rfl⟩
  show (reactionsFor (save db m now) m.id).map ReactionRec.toReaction = m.reactions
  rw [reactionsFor_save_self, tagReactions_toReaction]

/-- Witness of C1_amended at a concrete database, both for the duplicate
path and for the reaction replacement. -/
theorem C1_amended_witness :
    (save (save emptyDb c1MsgOld 5) c1MsgNew 9).messages.find?
        (fun row => row.id == c1MsgNew.id) = some ⟨1, 10, 20, "b", 0, 0, 9⟩ ∧
    reactionsFor (save (save emptyDb c1MsgOld 5) c1MsgNew 9) c1MsgNew.id =
      tagReactions c1MsgNew := by
  refine ⟨?_, (C1_amended (save emptyDb c1MsgOld 5) c1MsgNew 9).2.2.1⟩
  exact (C1_amended (save emptyDb c1MsgOld 5) c1MsgNew 9).1 ⟨1, 10, 20, "a", 0, 0, 5⟩
    (by decide)

/-! ### Claim C6: should_refresh buckets -/

/-- C6, counterexample. At age exactly 12 hours with the last crawl 10
minutes ago, the claim (whose middle bucket runs between 3 and 12 hours,
the last bucket being reserved for ages strictly greater than 12 hours)
demands a refresh, but the source tests age < 12 hours, so age exactly 12
hours falls into the 30 minute bucket and the refresh is declined. -/
theorem C6_counterexample :
    should_refresh 0 (hoursToSeconds 12 - minutesToSeconds 10) (hoursToSeconds 12) = false ∧
    claimShouldRefresh 0 (hoursToSeconds 12 - minutesToSeconds 10) (hoursToSeconds 12) = true := by
  decide

/-- C6, amended. The refresh predicate holds iff the time since the last
crawl reached the bucket interval, with buckets age < 3h (1 minute),
3h <= age < 12h (10 minutes) and age >= 12h (30 minutes); the boundary
age 3h gets 10 minutes and the boundary age 12h gets 30 minutes, and the
comparison with the interval is inclusive. -/
theorem C6_amended (created_at last_crawled_at now : Int) :
    (now - created_at < hoursToSeconds 3 →
      (should_refresh created_at last_crawled_at now = true ↔
        now - last_crawled_at ≥ minutesToSeconds 1)) ∧
    (hoursToSeconds 3 ≤ now - created_at → now - created_at < hoursToSeconds 12 →
      (should_refresh created_at last_crawled_at now = true ↔
        now - last_crawled_at ≥ minutesToSeconds 10)) ∧
    (hoursToSeconds 12 ≤ now - created_at →
      (should_refresh created_at last_crawled_at now = true ↔
        now - last_crawled_at ≥ minutesToSeconds 30)) := by
  have hs : should_refresh created_at last_crawled_at now = true ↔
      now - last_crawled_at ≥
        (if now - created_at < hoursToSeconds 3 then minutesToSeconds 1
         else if now - created_at < hoursToSeconds 12 then minutesToSeconds 10
         else minutesToSeconds 30) := by
    simp [should_refresh]
  unfold hoursToSeconds minutesToSeconds at hs ⊢
  refine ⟨fun h1 => ?_, fun h1 h2 => ?_, fun h1 => ?_⟩ <;> rw [hs] <;> split_ifs <;>
    first
    | rfl
    | (constructor <;> intro <;> omega)

/-- Witness of C6_amended: a message aged exactly 12 hours whose last
crawl is 30 minutes old is refreshed. -/
theorem C6_amended_witness :
    should_refresh 0 (hoursToSeconds 12 - minutesToSeconds 30) (hoursToSeconds 12) = true := by
  exact ((C6_amended 0 (hoursToSeconds 12 - minutesToSeconds 30) (hoursToSeconds 12)).2.2
    (by decide)).mpr (by decide)

/-! ### Upstream client port (crates/domain/src/traq_client.rs) and errors -/

/-- Translation of TraqClientError. -/
inductive TraqClientError where
  | HttpRequest (msg : String)
  | ResponseParse (msg : String)
  | ApiError (status : Nat) (msg : String)
deriving DecidableEq, Repr

/-- Translation of DomainError (crates/domain/src/error.rs). -/
inductive DomainError where
  | NoMessageForId (id : Nat)
  | NoTokenForUserFetch
  | NoTokenForUserIcon
  | NoTokenForStampFetch
  | NoTokenForStampImage
  | NoTokenForStampsList
  | NoTokenForUser (id : Nat)
  | Repository (msg : String)
  | TraqClient (e : TraqClientError)
deriving DecidableEq, Repr

/-- Behavior of the upstream, one pure function per endpoint the claims
touch. -/
structure TraqClient where
  fetch_messages_since : String → Int → Except TraqClientError (List Message)
  get_message : String → Nat → Except TraqClientError Message
  get_user : String → Nat → Except TraqClientError User
  get_stamps : String → Except TraqClientError (List Stamp)
  remove_message_stamp : String → Nat → Nat → Except TraqClientError Unit

/-- Record of one upstream call, for the frame parts of the claims. -/
inductive ClientCall where
  | fetchMessagesSince (token : String) (since : Int)
  | getMessage (token : String) (id : Nat)
  | getUser (token : String) (id : Nat)
  | getStamps (token : String)
  | removeMessageStamp (token : String) (mid sid : Nat)
deriving DecidableEq, Repr

/-- Client that fails every call, used by closed examples in which no
call may be made. -/
def failingClient : TraqClient :=
  ⟨fun _ _ => .error (.HttpRequest "down"), fun _ _ => .error (.HttpRequest "down"),
   fun _ _ => .error (.HttpRequest "down"), fun _ => .error (.HttpRequest "down"),
   fun _ _ _ => .error (.HttpRequest "down")⟩

/-! ### User repository token lookups (mariadb/user.rs) -/

/-- Translation of find_random_valid_token: none when user_tokens is
empty, otherwise the row at a random offset below the row count; the
random draw is passed in as an argument. -/
def find_random_valid_token (db : Db) (r : Nat) : Option String :=
  if db.user_tokens.isEmpty then none
  else (db.user_tokens[r % db.user_tokens.length]?).map Prod.snd

/-- Translation of find_token_by_user_id. -/
def find_token_by_user_id (db : Db) (uid : Nat) : Option String :=
  (db.user_tokens.find? (fun t => t.1 == uid)).map Prod.snd

/-! ### Crawler (crates/domain/src/crawler.rs) -/

/-- One candidate of the refresh loop in MessageCrawler.refresh_messages:
skip when not due; call get_message and on upstream failure log and move
on; read the old copy and fail with NoMessageForId when it is gone; save
the new message unconditionally; record it as changed only when it
differs from the old copy under the Message equality. The accumulator
carries the database, the changed list and the upstream calls made. -/
def refreshStep (client : TraqClient) (token : String) (now : Int)
    (acc : Db × List Message × List ClientCall) (c : Nat × Int × Int) :
    Except DomainError (Db × List Message × List ClientCall) :=
  let (db, changed, calls) := acc
  if should_refresh c.2.1 c.2.2 now then
    match client.get_message token c.1 with
    | .error _ => .ok (db, changed, calls ++ [.getMessage token c.1])
    | .ok newMsg =>
      match find_by_id db c.1 with
      | none => .error (.NoMessageForId c.1)
      | some oldMsg =>
        .ok (save db newMsg now,
          (if messageEq oldMsg newMsg then changed else changed ++ [newMsg]),
          calls ++ [.getMessage token c.1])
  else .ok (db, changed, calls)

/-- Error-aborting fold over the candidates that keeps the state reached
so far, matching the behavior of the question-mark operator inside the
refresh loop: mutations before the failing candidate persist. -/
def refreshLoop (client : TraqClient) (token : String) (now : Int) :
    List (Nat × Int × Int) → (Db × List Message × List ClientCall) →
      (Db × List Message × List ClientCall) × Option DomainError
  | [], acc => (acc, none)
  | c :: rest, acc =>
    match refreshStep client token now acc c with
    | .error e => (acc, some e)
    | .ok acc2 => refreshLoop client token now rest acc2

/-- Translation of MessageCrawler.refresh_messages. -/
def refresh_messages (client : TraqClient) (token : String) (now : Int) (db : Db) :
    (Db × List Message × List ClientCall) × Option DomainError :=
  refreshLoop client token now (find_sync_candidates db now) (db, [], [])

/-- Outcome of one crawler tick. -/
structure CrawlOutcome where
  result : Except DomainError Unit
  db : Db
  calls : List ClientCall
  notified : List Message
deriving Repr

/-- Translation of MessageCrawler.crawl: compute the water mark with a
24 hour fallback, pick a random token and silently skip the tick when
none exists, fetch messages since the mark, bulk-save them, refresh the
sync candidates and notify every changed message. -/
def crawl (db : Db) (client : TraqClient) (r : Nat) (now : Int) : CrawlOutcome :=
  let last_fetched_at := (find_latest_message_time db).getD (now - hoursToSeconds 24)
  match find_random_valid_token db r with
  | none => ⟨.ok (), db, [], []⟩
  | some token =>
    match client.fetch_messages_since token last_fetched_at with
    | .error e => ⟨.error (.TraqClient e), db,
        [.fetchMessagesSince token last_fetched_at], []⟩
    | .ok msgs =>
      let db1 := save_batch db msgs now
      match refresh_messages client token now db1 with
      | (acc, some e) => ⟨.error e, acc.1,
          .fetchMessagesSince token last_fetched_at :: acc.2.2, []⟩
      | (acc, none) => ⟨.ok (), acc.1,
          .fetchMessagesSince token last_fetched_at :: acc.2.2, acc.2.1⟩

/-! ### Claim C5: refresh saves always, notifies on real change -/

instance : DecidableRel claimMessageEq := fun a b => by
  unfold claimMessageEq; infer_instance

/-- C5. For a sync candidate that is due for refresh, whose upstream read
succeeds and whose old local copy exists, the refresh step always
executes save on the new message (which bumps last_crawled_at) and
appends the message to the changed list exactly when it differs from the
old copy under the equality that compares all scalar fields and the
reaction sets order-independently; last_crawled_at cannot enter the
comparison because the domain Message does not carry it. -/
theorem C5_theorem (client : TraqClient) (token : String) (now : Int)
    (db : Db) (changed : List Message) (calls : List ClientCall)
    (c : Nat × Int × Int) (newMsg oldMsg : Message)
    (hdue : should_refresh c.2.1 c.2.2 now = true)
    (hclient : client.get_message token c.1 = .ok newMsg)
    (hold : find_by_id db c.1 = some oldMsg) :
    refreshStep client token now (db, changed, calls) c =
      .ok (save db newMsg now,
        (if claimMessageEq oldMsg newMsg then changed else changed ++ [newMsg]),
        calls ++ [.getMessage token c.1]) := by
  unfold refreshStep
  simp only [if_pos hdue, hclient, hold]
  by_cases hc : claimMessageEq oldMsg newMsg
  · rw [if_pos hc, if_pos ((messageEq_iff_claimMessageEq _ _).mpr hc)]
  · rw [if_neg hc, if_neg (fun hme => hc ((messageEq_iff_claimMessageEq _ _).mp hme))]

/-- Old local copy of the C5 example. -/
def c5Old : Message := ⟨1, 10, 20, "old", 0, 0, [⟨2, 3, 1⟩]⟩

/-- Refreshed upstream copy of the C5 example: same scalars except the
content, same reaction set. -/
def c5New : Message := ⟨1, 10, 20, "new", 0, 0, [⟨2, 3, 1⟩]⟩

/-- Database of the C5 example, holding the old copy. -/
def c5Db : Db := save emptyDb c5Old 100

/-- Client of the C5 example, serving the refreshed copy of message 1. -/
def c5Client : TraqClient :=
  { failingClient with
    get_message := fun _ mid => if mid = 1 then .ok c5New else .error (.ApiError 404 "nf") }

/-- Witness of C5_theorem: the changed copy is saved and recorded. -/
theorem C5_theorem_witness :
    refreshStep c5Client "t" 200 (c5Db, [], []) (1, 0, 100) =
      .ok (save c5Db c5New 200, [c5New], [.getMessage "t" 1]) := by
  have h := C5_theorem c5Client "t" 200 c5Db [] [] (1, 0, 100) c5New c5Old
    (by decide) rfl rfl
  rw [if_neg (by decide)] at h
  exact h

/-! ### Claim C9: a tick without a token is a silent no-op -/

/-- C9. When no token is stored, crawl returns success, issues no
upstream call, leaves the database untouched and notifies nobody. -/
theorem C9_theorem (db : Db) (client : TraqClient) (r : Nat) (now : Int)
    (h : db.user_tokens = []) :
    (crawl db client r now).result = .ok () ∧
    (crawl db client r now).calls = [] ∧
    (crawl db client r now).db = db ∧
    (crawl db client r now).notified = [] := by
  unfold crawl find_random_valid_token
  simp [h]

/-- Witness of C9_theorem on the empty database. -/
theorem C9_theorem_witness :
    (crawl emptyDb failingClient 0 0).result = .ok () ∧
    (crawl emptyDb failingClient 0 0).calls = [] ∧
    (crawl emptyDb failingClient 0 0).db = emptyDb ∧
    (crawl emptyDb failingClient 0 0).notified = [] :=
  C9_theorem emptyDb failingClient 0 0 rfl

/-! ### Cache-through service (crates/domain/src/service.rs) -/

/-- Outcome of one service call: the returned value, the database after
the call, and the upstream calls made. -/
structure ServiceOutcome (α : Type) where
  result : Except DomainError α
  db : Db
  calls : List ClientCall

/-- Translation of the user find_by_id of mariadb/user.rs. -/
def findUserById (db : Db) (uid : Nat) : Option User :=
  db.users.find? (fun u => u.id == uid)

/-- Translation of the user save: INSERT with ON DUPLICATE KEY UPDATE
display_name = VALUE(display_name); a duplicate id only refreshes the
display name. -/
def saveUser : List User → User → List User
  | [], u => [u]
  | r :: rest, u =>
    if r.id = u.id then { r with display_name := u.display_name } :: rest
    else r :: saveUser rest u

/-- Translation of TraqServiceImpl.get_user_by_id: serve from the users
table; on a miss take a random token, failing with NoTokenForUserFetch
when none exists, fetch the user upstream, save it, return it. -/
def get_user_by_id (db : Db) (client : TraqClient) (r : Nat) (uid : Nat) :
    ServiceOutcome User :=
  match findUserById db uid with
  | some u => ⟨.ok u, db, []⟩
  | none =>
    match find_random_valid_token db r with
    | none => ⟨.error .NoTokenForUserFetch, db, []⟩
    | some token =>
      match client.get_user token uid with
      | .error e => ⟨.error (.TraqClient e), db, [.getUser token uid]⟩
      | .ok u => ⟨.ok u, { db with users := saveUser db.users u }, [.getUser token uid]⟩

/-- Translation of TraqServiceImpl.remove_message_stamp: resolve the
token of the acting user, call the upstream removal, then delete the
local triple directly; the optimistic path never calls get_message and
never saves the message. -/
def remove_message_stamp (db : Db) (client : TraqClient) (uid mid sid : Nat) :
    ServiceOutcome Unit :=
  match find_token_by_user_id db uid with
  | none => ⟨.error (.NoTokenForUser uid), db, []⟩
  | some token =>
    match client.remove_message_stamp token mid sid with
    | .error e => ⟨.error (.TraqClient e), db, [.removeMessageStamp token mid sid]⟩
    | .ok _ => ⟨.ok (), remove_reaction db mid sid uid, [.removeMessageStamp token mid sid]⟩

/-- Translation of the stamp save of mariadb/stamp.rs: upsert by id,
refreshing the name on duplicates. -/
def saveStampRow : List Stamp → Stamp → List Stamp
  | [], st => [st]
  | r :: rest, st =>
    if r.id = st.id then { r with name := st.name } :: rest
    else r :: saveStampRow rest st

/-- Translation of the stamp save_batch: no-op on empty input, otherwise
upsert every row. -/
def stampSaveBatch (rows : List Stamp) (sts : List Stamp) : List Stamp :=
  if sts.isEmpty then rows else sts.foldl saveStampRow rows

/-- Translation of TraqServiceImpl.get_stamps: require a random token,
failing with NoTokenForStampsList when none, fetch the full stamp list
from upstream and bulk-save it into the stamps table. -/
def get_stamps (db : Db) (client : TraqClient) (r : Nat) :
    ServiceOutcome (List Stamp) :=
  match find_random_valid_token db r with
  | none => ⟨.error .NoTokenForStampsList, db, []⟩
  | some token =>
    match client.get_stamps token with
    | .error e => ⟨.error (.TraqClient e), db, [.getStamps token]⟩
    | .ok stamps =>
      ⟨.ok stamps, { db with stamps := stampSaveBatch db.stamps stamps }, [.getStamps token]⟩

/-- Substring containment, the relation behind the str contains call of
search_stamps: the pattern char sequence occurs contiguously in the
name. Char comparison is exact, hence case sensitive. -/
def strContains (hay pat : String) : Bool := decide (pat.toList <:+: hay.toList)

/-- Translation of TraqServiceImpl.search_stamps: fetch and cache the
full list through get_stamps, then filter client-side by substring
containment. -/
def search_stamps (db : Db) (client : TraqClient) (r : Nat) (name : String) :
    ServiceOutcome (List Stamp) :=
  let out := get_stamps db client r
  match out.result with
  | .error e => ⟨.error e, out.db, out.calls⟩
  | .ok stamps => ⟨.ok (stamps.filter (fun s => strContains s.name name)), out.db, out.calls⟩

/-! ### Claim C7: read-through for users -/

/-- C7. For every user id: a cache hit returns the stored user with no
upstream call and no state change; a miss with some token stored calls
get_user exactly once and stores the fetched user in the outcome
database before returning it; a miss with no token fails with the typed
NoTokenForUserFetch error, calling nothing. -/
theorem C7_theorem (db : Db) (client : TraqClient) (r : Nat) (uid : Nat) :
    (∀ u, findUserById db uid = some u →
      get_user_by_id db client r uid = ⟨.ok u, db, []⟩) ∧
    (findUserById db uid = none → db.user_tokens ≠ [] →
      ∃ token, find_random_valid_token db r = some token ∧
        ∀ u, client.get_user token uid = .ok u →
          get_user_by_id db client r uid =
            ⟨.ok u, { db with users := saveUser db.users u }, [.getUser token uid]⟩) ∧
    (findUserById db uid = none → db.user_tokens = [] →
      get_user_by_id db client r uid = ⟨.error .NoTokenForUserFetch, db, []⟩) := by
  refine ⟨fun u h => ?_, fun h ht => ?_, fun h ht => ?_⟩
  · unfold get_user_by_id
    rw [h]
  · have hpos : 0 < db.user_tokens.length := List.length_pos.mpr ht
    have hlt : r % db.user_tokens.length < db.user_tokens.length := Nat.mod_lt _ hpos
    have hfrt : find_random_valid_token db r =
        some (db.user_tokens[r % db.user_tokens.length]).2 := by
      unfold find_random_valid_token
      rw [if_neg (by simp [List.isEmpty_iff, ht]), List.getElem?_eq_getElem hlt]
      rfl
    refine ⟨(db.user_tokens[r % db.user_tokens.length]).2, hfrt, fun u hu => ?_⟩
    unfold get_user_by_id
    simp only [h, hfrt, hu]
  · unfold get_user_by_id
    rw [h]
    unfold find_random_valid_token
    simp [ht]

/-- Cached user of the C7 example. -/
def c7User : User := ⟨10, "h", "d"⟩

/-- User the upstream serves in the C7 example. -/
def c7Fetched : User := ⟨11, "x", "y"⟩

/-- Database of the C7 example: user 10 cached, one token. -/
def c7Db : Db := ⟨[], [], [], [c7User], [(10, "tok")], []⟩

/-- Client of the C7 example, serving user 11. -/
def c7Client : TraqClient :=
  { failingClient with
    get_user := fun _ uid => if uid = 11 then .ok c7Fetched else .error (.ApiError 404 "nf") }

/-- Witness of C7_theorem: hit, miss-with-token and miss-without-token at
concrete inputs. -/
theorem C7_theorem_witness :
    get_user_by_id c7Db c7Client 0 10 = ⟨.ok c7User, c7Db, []⟩ ∧
    get_user_by_id c7Db c7Client 0 11 =
      ⟨.ok c7Fetched, { c7Db with users := saveUser c7Db.users c7Fetched },
       [.getUser "tok" 11]⟩ ∧
    get_user_by_id emptyDb c7Client 0 11 = ⟨.error .NoTokenForUserFetch, emptyDb, []⟩ := by
  refine ⟨(C7_theorem c7Db c7Client 0 10).1 c7User rfl, ?_,
    (C7_theorem emptyDb c7Client 0 11).2.2 rfl rfl⟩
  obtain ⟨token, htok, hfn⟩ := (C7_theorem c7Db c7Client 0 11).2.1 rfl (by decide)
  injection htok with htok2
  subst htok2
  exact hfn c7Fetched rfl

/-! ### Claim C8: optimistic reaction delete -/

/-- C8. When the acting user has a token and the upstream removal
succeeds, remove_message_stamp deletes the local triple directly: the
only upstream call is the removal (never get_message), no message is
saved, all tables except reactions are untouched, the reloaded message
carries no (stamp, user) triple any more while its other reactions and
all other messages are unchanged. -/
theorem C8_theorem (db : Db) (client : TraqClient) (uid mid sid : Nat) (token : String)
    (htok : find_token_by_user_id db uid = some token)
    (hup : client.remove_message_stamp token mid sid = .ok ()) :
    remove_message_stamp db client uid mid sid =
      ⟨.ok (), remove_reaction db mid sid uid, [.removeMessageStamp token mid sid]⟩ ∧
    (remove_reaction db mid sid uid).messages = db.messages ∧
    (remove_reaction db mid sid uid).read_messages = db.read_messages ∧
    (remove_reaction db mid sid uid).users = db.users ∧
    (remove_reaction db mid sid uid).user_tokens = db.user_tokens ∧
    (remove_reaction db mid sid uid).stamps = db.stamps ∧
    (∀ msg, find_by_id (remove_reaction db mid sid uid) mid = some msg →
      ∀ rc ∈ msg.reactions, ¬ (rc.stamp_id = sid ∧ rc.user_id = uid)) ∧
    reactionsFor (remove_reaction db mid sid uid) mid =
      (reactionsFor db mid).filter
        (fun rr => decide (¬ (rr.stamp_id = sid ∧ rr.user_id = uid))) ∧
    (∀ m2, m2 ≠ mid → find_by_id (remove_reaction db mid sid uid) m2 = find_by_id db m2) := by
  refine ⟨?_, rfl, rfl, rfl, rfl, rfl, fun msg hmsg rc hrc => ?_, ?_, fun m2 hne => ?_⟩
  · unfold remove_message_stamp
    simp only [htok, hup]
  · unfold find_by_id at hmsg
    rcases Option.map_eq_some'.1 hmsg with ⟨row, hrow, rfl⟩
    simp only [List.mem_map] at hrc
    rcases hrc with ⟨rr, hrr, rfl⟩
    unfold reactionsFor remove_reaction at hrr
    simp only [List.mem_filter] at hrr
    rcases hrr with ⟨⟨_, hq⟩, hm⟩
    intro hcon
    have h1 : rr.message_id = mid := by simpa using hm
    have : rr.message_id = mid ∧ rr.stamp_id = sid ∧ rr.user_id = uid :=
      ⟨h1, hcon.1, hcon.2⟩
    simpa [this] using hq
  · unfold reactionsFor remove_reaction
    rw [List.filter_filter, List.filter_filter]
    apply List.filter_congr
    intro a _
    by_cases h1 : a.message_id = mid <;> by_cases h2 : a.stamp_id = sid <;>
      by_cases h3 : a.user_id = uid <;> simp [h1, h2, h3]
  · have hre : reactionsFor (remove_reaction db mid sid uid) m2 = reactionsFor db m2 := by
      unfold reactionsFor remove_reaction
      rw [List.filter_filter]
      apply List.filter_congr
      intro a _
      by_cases h1 : a.message_id = m2
      · simp [h1]
        exact Or.inl hne
      · simp [h1]
    unfold find_by_id
    rw [hre]
    rfl

/-- Database of the C8 example: message 1 with reactions (2, 7) and
(3, 8), user 7 holding a token. -/
def c8Db : Db :=
  ⟨[⟨1, 10, 20, "m", 0, 0, 50⟩], [⟨1, 2, 7, 1⟩, ⟨1, 3, 8, 1⟩], [], [], [(7, "tok7")], []⟩

/-- Client of the C8 example, accepting every removal. -/
def c8Client : TraqClient :=
  { failingClient with remove_message_stamp := fun _ _ _ => .ok () }

/-- Witness of C8_theorem: user 7 removes stamp 2 from message 1 and only
the (2, 7) triple disappears. -/
theorem C8_theorem_witness :
    remove_message_stamp c8Db c8Client 7 1 2 =
      ⟨.ok (), remove_reaction c8Db 1 2 7, [.removeMessageStamp "tok7" 1 2]⟩ ∧
    reactionsFor (remove_reaction c8Db 1 2 7) 1 = [⟨1, 3, 8, 1⟩] := by
  obtain ⟨h1, _, _, _, _, _, _, h8, _⟩ := C8_theorem c8Db c8Client 7 1 2 "tok7" rfl rfl
  refine ⟨h1, ?_⟩
  rw [h8]
  decide

/-! ### Claim C10: stamp search semantics -/

/-- C10. When a token exists and the upstream list fetch succeeds,
search_stamps fetches the full list exactly once, bulk-saves it into the
stamps table even when nothing matches, and returns exactly the fetched
stamps whose names contain the query as a case sensitive substring; the
empty query keeps the whole list. -/
theorem C10_theorem (db : Db) (client : TraqClient) (r : Nat) (name : String)
    (token : String) (stamps : List Stamp)
    (htok : find_random_valid_token db r = some token)
    (hup : client.get_stamps token = .ok stamps) :
    search_stamps db client r name =
      ⟨.ok (stamps.filter (fun s => strContains s.name name)),
       { db with stamps := stampSaveBatch db.stamps stamps }, [.getStamps token]⟩ ∧
    (∀ s, s ∈ stamps.filter (fun s2 => strContains s2.name name) ↔
      s ∈ stamps ∧ name.toList <:+: s.name.toList) ∧
    stamps.filter (fun s => strContains s.name "") = stamps := by
  refine ⟨?_, fun s => ?_, ?_⟩
  · unfold search_stamps get_stamps
    simp only [htok, hup]
  · simp [List.mem_filter, strContains]
  · refine List.filter_eq_self.mpr fun s _ => ?_
    unfold strContains
    simp only [decide_eq_true_eq]
    exact ⟨[], s.name.toList, by simp⟩

/-- Database of the C10 example: one token stored. -/
def c10Db : Db := ⟨[], [], [], [], [(7, "tok")], []⟩

/-- Stamp list of the C10 example. -/
def c10Stamps : List Stamp := [⟨1, "golang"⟩, ⟨2, "rust"⟩, ⟨3, "go_fast"⟩]

/-- Client of the C10 example, serving the stamp list. -/
def c10Client : TraqClient :=
  { failingClient with get_stamps := fun _ => .ok c10Stamps }

/-- Witness of C10_theorem: searching go returns golang and go_fast and
caches the whole list. -/
theorem C10_theorem_witness :
    search_stamps c10Db c10Client 0 "go" =
      ⟨.ok [⟨1, "golang"⟩, ⟨3, "go_fast"⟩],
       { c10Db with stamps := stampSaveBatch c10Db.stamps c10Stamps },
       [.getStamps "tok"]⟩ := by
  have h := (C10_theorem c10Db c10Client 0 "go" "tok" c10Stamps rfl rfl).1
  rw [h]
  have hf : c10Stamps.filter (fun s => strContains s.name "go") =
      [⟨1, "golang"⟩, ⟨3, "go_fast"⟩] := by decide
  rw [hf]

/-! ### Recommendation scoring (TimelineServiceImpl.get_recommended_messages) -/

/-- Entry of the scoring map: message id, the stored item (kept from the
first source that inserted it) and the accumulated score. -/
abbrev ScoreEntry := Nat × MessageListItem × ℚ

/-- Update of the scoring map, translating the entry and_modify or_insert
pair of add_score: an existing key keeps its stored item and only gains
score, a new key is appended with the item and its contribution. The map
keys are unique, so updating the first match is exact. -/
def upsertScore : List ScoreEntry → MessageListItem → ℚ → List ScoreEntry
  | [], m, sc => [(m.id, m, sc)]
  | e :: rest, m, sc =>
    if e.1 = m.id then (e.1, e.2.1, e.2.2 + sc) :: rest
    else e :: upsertScore rest m sc

/-- Indexed walk over one source list, translating the enumerate loop of
add_score: the item at 0-based rank i contributes
base + max(50 - i, 0) * mult. -/
def addScoreAux (base mult : ℚ) :
    List MessageListItem → Nat → List ScoreEntry → List ScoreEntry
  | [], _, acc => acc
  | m :: rest, i, acc =>
    addScoreAux base mult rest (i + 1)
      (upsertScore acc m (base + max (50 - (i : ℚ)) 0 * mult))

/-- Translation of the add_score closure. -/
def add_score (acc : List ScoreEntry) (msgs : List MessageListItem)
    (base mult : ℚ) : List ScoreEntry :=
  addScoreAux base mult msgs 0 acc

/-- Merge of the four candidate sources in the source order TOP, AUTH,
CHAN, SIM with their base scores and rank multipliers. -/
def mergeScores (top auth chan sim : List MessageListItem) : List ScoreEntry :=
  add_score (add_score (add_score (add_score [] top 5 (1/10)) auth 5 (3/20)) chan 3 (1/10))
    sim 5 (1/10)

/-- Comparator of the final sort_by call: descending by score. -/
def scoreGe (a b : MessageListItem × ℚ) : Prop := b.2 ≤ a.2

instance : DecidableRel scoreGe := fun a b => by unfold scoreGe; infer_instance

instance : IsTotal (MessageListItem × ℚ) scoreGe := ⟨fun a b => le_total b.2 a.2⟩

instance : IsTrans (MessageListItem × ℚ) scoreGe := ⟨fun _ _ _ h1 h2 => le_trans h2 h1⟩

/-- Stable descending sort of the iterated map values, truncated to 50,
scores still attached. -/
def rankPairs (values : List (MessageListItem × ℚ)) : List (MessageListItem × ℚ) :=
  (values.insertionSort scoreGe).take 50

/-- Final selection of get_recommended_messages: drop the scores. -/
def selectRecommended (values : List (MessageListItem × ℚ)) : List MessageListItem :=
  (rankPairs values).map Prod.fst

/-- Possible outputs of get_recommended_messages for given source lists:
the scoring hash map is iterated in an unspecified order (Rust HashMap
iteration depends on a per-map random hasher), modelled as an arbitrary
permutation of the map entries, then stably sorted descending by score
and truncated to 50. -/
def IsRecommendedOutput (top auth chan sim : List MessageListItem)
    (out : List MessageListItem) : Prop :=
  ∃ values, List.Perm values ((mergeScores top auth chan sim).map Prod.snd) ∧
    out = selectRecommended values

/-- Score of an id in the map, zero when absent. -/
def scoreOf : List ScoreEntry → Nat → ℚ
  | [], _ => 0
  | e :: rest, mid => if e.1 = mid then e.2.2 else scoreOf rest mid

/-- Contribution of one source list to one id as claim C3 words it:
base + max(0, 50 - i) * mult at every 0-based rank i where the id
occurs. -/
def claimContributionAux (base mult : ℚ) (mid : Nat) :
    List MessageListItem → Nat → ℚ
  | [], _ => 0
  | m :: rest, i =>
    (if m.id = mid then base + max 0 (50 - (i : ℚ)) * mult else 0) +
      claimContributionAux base mult mid rest (i + 1)

/-- Contribution of a whole source list, ranks starting at zero. -/
def claimContribution (msgs : List MessageListItem) (base mult : ℚ) (mid : Nat) : ℚ :=
  claimContributionAux base mult mid msgs 0

theorem scoreOf_upsertScore (acc : List ScoreEntry) (m : MessageListItem) (sc : ℚ)
    (mid : Nat) :
    scoreOf (upsertScore acc m sc) mid =
      scoreOf acc mid + (if m.id = mid then sc else 0) := by
  induction acc with
  | nil =>
    by_cases h : m.id = mid <;> simp [upsertScore, scoreOf, h]
  | cons e rest ih =>
    by_cases h1 : e.1 = m.id
    · by_cases h2 : e.1 = mid
      · simp [upsertScore, scoreOf, h1, h2, h1 ▸ h2]
      · have : ¬ m.id = mid := fun hz => h2 (h1.trans hz)
        simp [upsertScore, scoreOf, h1, h2, this]
    · by_cases h2 : e.1 = mid
      · have h3 : ¬ mid = m.id := fun hz => h1 (h2.trans hz)
        have h4 : ¬ m.id = mid := fun hz => h3 hz.symm
        simp [upsertScore, scoreOf, h1, h2, h3, h4]
      · simp [upsertScore, scoreOf, h1, h2, ih]

theorem scoreOf_addScoreAux (base mult : ℚ) (mid : Nat) (msgs : List MessageListItem) :
    ∀ (i : Nat) (acc : List ScoreEntry),
      scoreOf (addScoreAux base mult msgs i acc) mid =
        scoreOf acc mid + claimContributionAux base mult mid msgs i := by
  induction msgs with
  | nil => intro i acc; simp [addScoreAux, claimContributionAux]
  | cons m rest ih =>
    intro i acc
    show scoreOf (addScoreAux base mult rest (i + 1)
        (upsertScore acc m (base + max (50 - (i : ℚ)) 0 * mult))) mid = _
    rw [ih, scoreOf_upsertScore]
    show _ = scoreOf acc mid +
      ((if m.id = mid then base + max 0 (50 - (i : ℚ)) * mult else 0) +
        claimContributionAux base mult mid rest (i + 1))
    rw [max_comm (0 : ℚ) (50 - (i : ℚ))]
    ring

/-- Provenance through the map update: a stored item is an old item or
the inserted one. -/
theorem mem_upsertScore (acc : List ScoreEntry) (m : MessageListItem) (sc : ℚ)
    (e : ScoreEntry) (h : e ∈ upsertScore acc m sc) :
    (∃ q, (e.1, e.2.1, q) ∈ acc) ∨ e.2.1 = m := by
  induction acc with
  | nil =>
    simp [upsertScore] at h
    subst h
    exact Or.inr rfl
  | cons e2 rest ih =>
    by_cases h1 : e2.1 = m.id
    · simp only [upsertScore, if_pos h1, List.mem_cons] at h
      rcases h with h | h
      · subst h
        exact Or.inl ⟨e2.2.2, List.mem_cons_self _ _⟩
      · exact Or.inl ⟨e.2.2, List.mem_cons_of_mem _ (by simpa using h)⟩
    · simp only [upsertScore, if_neg h1, List.mem_cons] at h
      rcases h with h | h
      · subst h
        exact Or.inl ⟨e.2.2, List.mem_cons_self _ _⟩
      · rcases ih h with ⟨q, hq⟩ | hm
        · exact Or.inl ⟨q, List.mem_cons_of_mem _ hq⟩
        · exact Or.inr hm

/-- Provenance through one source: a stored item was stored before or
belongs to the source list. -/
theorem mem_addScoreAux (base mult : ℚ) (msgs : List MessageListItem) :
    ∀ (i : Nat) (acc : List ScoreEntry) (e : ScoreEntry),
      e ∈ addScoreAux base mult msgs i acc →
      (∃ q, (e.1, e.2.1, q) ∈ acc) ∨ e.2.1 ∈ msgs := by
  induction msgs with
  | nil => intro i acc e h; exact Or.inl ⟨e.2.2, by simpa [addScoreAux] using h⟩
  | cons m rest ih =>
    intro i acc e h
    rcases ih (i + 1) _ e h with ⟨q, hq⟩ | hm
    · rcases mem_upsertScore acc m _ _ hq with ⟨q2, hq2⟩ | hm2
      · exact Or.inl ⟨q2, hq2⟩
      · have hm3 : e.2.1 = m := hm2
        exact Or.inr (by simp [hm3])
    · exact Or.inr (List.mem_cons_of_mem _ hm)

/-- Provenance through the whole merge: every stored item comes from one
of the four source lists. -/
theorem mem_mergeScores (top auth chan sim : List MessageListItem) (e : ScoreEntry)
    (h : e ∈ mergeScores top auth chan sim) :
    e.2.1 ∈ top ∨ e.2.1 ∈ auth ∨ e.2.1 ∈ chan ∨ e.2.1 ∈ sim := by
  unfold mergeScores add_score at h
  rcases mem_addScoreAux _ _ sim 0 _ e h with ⟨q, hq⟩ | hm
  · rcases mem_addScoreAux _ _ chan 0 _ _ hq with ⟨q2, hq2⟩ | hm
    · rcases mem_addScoreAux _ _ auth 0 _ _ hq2 with ⟨q3, hq3⟩ | hm
      · rcases mem_addScoreAux _ _ top 0 _ _ hq3 with ⟨q4, hq4⟩ | hm
        · simp at hq4
        · exact Or.inl hm
      · exact Or.inr (Or.inl hm)
    · exact Or.inr (Or.inr (Or.inl hm))
  · exact Or.inr (Or.inr (Or.inr hm))

/-- Selected items come from the iterated values. -/
theorem mem_selectRecommended (values : List (MessageListItem × ℚ))
    (item : MessageListItem) (h : item ∈ selectRecommended values) :
    ∃ q, (item, q) ∈ values := by
  unfold selectRecommended rankPairs at h
  rcases List.mem_map.1 h with ⟨p, hp, rfl⟩
  have h2 : p ∈ values.insertionSort scoreGe := List.mem_of_mem_take hp
  have h3 : p ∈ values := (List.perm_insertionSort scoreGe values).mem_iff.1 h2
  exact ⟨p.2, by simpa using h3⟩

/-! ### Claims C3 and C4: scoring formula, ordering, bound -/

/-- Item m1 of the worked scoring example. -/
def c3M1 : MessageListItem := ⟨1, 11, none, 21, "m1", 0, 0, []⟩

/-- Item m2 of the worked scoring example. -/
def c3M2 : MessageListItem := ⟨2, 12, none, 22, "m2", 0, 0, []⟩

/-- Item m3 of the worked scoring example. -/
def c3M3 : MessageListItem := ⟨3, 13, none, 23, "m3", 0, 0, []⟩

/-- TOP list of the worked example. -/
def c3Top : List MessageListItem := [c3M2, c3M3]

/-- AUTH list of the worked example. -/
def c3Auth : List MessageListItem := [c3M1, c3M2]

/-- C3. Every source list contributes base + max(0, 50 - i) * mult at
0-based rank i with (base, mult) equal to (5, 0.10) for TOP, (5, 0.15)
for AUTH, (3, 0.10) for CHAN and (5, 0.10) for SIM, and a message found
in several sources sums its contributions; in the example with
AUTH = [m1, m2] and TOP = [m2, m3] the scores are m1 = 12.5,
m2 = 22.35, m3 = 9.9, and every possible output is [m2, m1, m3]. The
f64 score arithmetic is modelled over exact rationals; all the
comparisons involved are far outside f64 rounding error. -/
theorem C3_theorem :
    (∀ top auth chan sim mid,
      scoreOf (mergeScores top auth chan sim) mid =
        claimContribution top 5 (1/10) mid + claimContribution auth 5 (3/20) mid +
          claimContribution chan 3 (1/10) mid + claimContribution sim 5 (1/10) mid) ∧
    scoreOf (mergeScores c3Top c3Auth [] []) 1 = 25/2 ∧
    scoreOf (mergeScores c3Top c3Auth [] []) 2 = 447/20 ∧
    scoreOf (mergeScores c3Top c3Auth [] []) 3 = 99/10 ∧
    (∀ out, IsRecommendedOutput c3Top c3Auth [] [] out → out = [c3M2, c3M1, c3M3]) := by
  have hmap : (mergeScores c3Top c3Auth [] []).map Prod.snd =
      [(c3M2, 447/20), (c3M3, 99/10), (c3M1, 25/2)] := by
    norm_num [mergeScores, add_score, addScoreAux, upsertScore, c3Top, c3Auth,
      c3M1, c3M2, c3M3, max_def]
  refine ⟨fun top auth chan sim mid => ?_,
    by norm_num [mergeScores, add_score, addScoreAux, upsertScore, scoreOf, c3Top, c3Auth,
      c3M1, c3M2, c3M3, max_def],
    by norm_num [mergeScores, add_score, addScoreAux, upsertScore, scoreOf, c3Top, c3Auth,
      c3M1, c3M2, c3M3, max_def],
    by norm_num [mergeScores, add_score, addScoreAux, upsertScore, scoreOf, c3Top, c3Auth,
      c3M1, c3M2, c3M3, max_def],
    fun out hout => ?_⟩
  · unfold mergeScores add_score claimContribution
    rw [scoreOf_addScoreAux, scoreOf_addScoreAux, scoreOf_addScoreAux, scoreOf_addScoreAux]
    show scoreOf [] mid + _ + _ + _ + _ = _
    simp only [scoreOf]
    ring
  · rcases hout with ⟨values, hperm, rfl⟩
    rw [hmap] at hperm
    have hv := List.mem_permutations'.2 hperm
    simp [List.permutations', List.permutations'Aux] at hv
    rcases hv with rfl | rfl | rfl | rfl | rfl | rfl <;>
      norm_num [selectRecommended, rankPairs, List.insertionSort, List.orderedInsert,
        scoreGe, List.take_of_length_le, c3M1, c3M2, c3M3]

/-- Witness of C3_theorem: the identity iteration order realizes the
example output. -/
theorem C3_theorem_witness :
    selectRecommended ((mergeScores c3Top c3Auth [] []).map Prod.snd) =
      [c3M2, c3M1, c3M3] :=
  C3_theorem.2.2.2.2 _ ⟨_, List.Perm.refl _, rfl⟩

/-- Item of the tie example inserted first (via TOP). -/
def c4A : MessageListItem := ⟨100, 41, none, 51, "a", 0, 0, []⟩

/-- Item of the tie example inserted second (via SIM). -/
def c4B : MessageListItem := ⟨200, 42, none, 52, "b", 0, 0, []⟩

/-- TOP list of the tie example. -/
def c4Top : List MessageListItem := [c4A]

/-- SIM list of the tie example. -/
def c4Sim : List MessageListItem := [c4B]

/-- C4, counterexample. With TOP = [a] and SIM = [b] both items score 10
and both [a, b] and [b, a] are possible outputs of the merge: the stable
sort runs over the unspecified hash map iteration order, so ties are not
broken by insertion order and the output is not determined by the source
lists. -/
theorem C4_counterexample :
    IsRecommendedOutput c4Top [] [] c4Sim [c4A, c4B] ∧
    IsRecommendedOutput c4Top [] [] c4Sim [c4B, c4A] ∧
    ([c4A, c4B] : List MessageListItem) ≠ [c4B, c4A] := by
  have hmap : (mergeScores c4Top [] [] c4Sim).map Prod.snd = [(c4A, 10), (c4B, 10)] := by
    norm_num [mergeScores, add_score, addScoreAux, upsertScore, c4Top, c4Sim,
      c4A, c4B, max_def]
  refine ⟨⟨[(c4A, 10), (c4B, 10)], by rw [hmap], ?_⟩,
    ⟨[(c4B, 10), (c4A, 10)], by rw [hmap]; exact List.Perm.swap _ _ _, ?_⟩, by decide⟩
  · norm_num [selectRecommended, rankPairs, List.insertionSort, List.orderedInsert,
      scoreGe, List.take_of_length_le, c4A, c4B]
  · norm_num [selectRecommended, rankPairs, List.insertionSort, List.orderedInsert,
      scoreGe, List.take_of_length_le, c4A, c4B]

/-- C4, amended. Every possible output of the merge is sorted descending
by score and has at most 50 elements; equal scores keep the unspecified
map iteration order under the stable sort, so their relative order is
neither forced to insertion order nor deterministic. -/
theorem C4_amended (top auth chan sim : List MessageListItem) (out : List MessageListItem)
    (h : IsRecommendedOutput top auth chan sim out) :
    out.length ≤ 50 ∧
    ∃ values, List.Perm values ((mergeScores top auth chan sim).map Prod.snd) ∧
      out = (rankPairs values).map Prod.fst ∧ List.Sorted scoreGe (rankPairs values) := by
  rcases h with ⟨values, hperm, rfl⟩
  refine ⟨?_, values, hperm, rfl, ?_⟩
  · unfold selectRecommended rankPairs
    rw [List.length_map]
    exact List.length_take_le _ _
  · unfold rankPairs
    exact List.Pairwise.sublist (List.take_sublist _ _)
      (List.sorted_insertionSort scoreGe values)

/-- Witness of C4_amended at the tie example with the identity iteration
order. -/
theorem C4_amended_witness :
    (selectRecommended ((mergeScores c4Top [] [] c4Sim).map Prod.snd)).length ≤ 50 :=
  (C4_amended c4Top [] [] c4Sim _ ⟨_, List.Perm.refl _, rfl⟩).1

/-! ### Recommendation queries over the database (mariadb) -/

/-- Message ids the viewer has read, the subquery behind the NOT IN
clauses. -/
def readIds (db : Db) (viewer : Nat) : List Nat :=
  (db.read_messages.filter (fun p => p.1 == viewer)).map Prod.snd

/-- Author lookup of the LEFT JOIN with users. -/
def userFor (db : Db) (uid : Nat) : Option User :=
  db.users.find? (fun u => u.id == uid)

/-- View of a messages table row as a MessageListItem with its reaction
rows attached and the author embedded when cached, translating the row
mapping plus hydrate_messages. -/
def hydrateRow (db : Db) (row : MessageRec) : MessageListItem :=
  { id := row.id, user_id := row.user_id, user := userFor db row.user_id,
    channel_id := row.channel_id, content := row.content,
    created_at := row.created_at, updated_at := row.updated_at,
    reactions := (reactionsFor db row.id).map ReactionRec.toReaction }

/-- Hydration of a whole row list. -/
def hydrate (db : Db) (rows : List MessageRec) : List MessageListItem :=
  rows.map (hydrateRow db)

/-- Count bump of one GROUP BY key, first occurrence order preserved. -/
def bumpKey : List (Nat × Nat) → Nat → List (Nat × Nat)
  | [], k => [(k, 1)]
  | e :: rest, k => if e.1 = k then (e.1, e.2 + 1) :: rest else e :: bumpKey rest k

/-- GROUP BY with COUNT over a key list. -/
def groupCounts (keys : List Nat) : List (Nat × Nat) := keys.foldl bumpKey []

/-- Comparator behind ORDER BY COUNT DESC. -/
def countGe (a b : Nat × Nat) : Prop := b.2 ≤ a.2

instance : DecidableRel countGe := fun a b => by unfold countGe; infer_instance

instance : IsTotal (Nat × Nat) countGe := ⟨fun a b => le_total b.2 a.2⟩

instance : IsTrans (Nat × Nat) countGe := ⟨fun _ _ _ h1 h2 => le_trans h2 h1⟩

/-- ORDER BY COUNT DESC; SQL leaves equal counts unordered, the model
keeps the stable first occurrence order, which no claim depends on. -/
def orderByCountDesc (l : List (Nat × Nat)) : List (Nat × Nat) :=
  l.insertionSort countGe

/-- Translation of find_frequently_stamped_users_by (mariadb/user.rs):
authors of the messages the viewer reacted to, grouped, ranked by
reaction count, first limit rows. The query does not exclude the viewer
themself. -/
def find_frequently_stamped_users_by (db : Db) (viewer : Nat) (limit : Nat) : List Nat :=
  let joined := (db.reactions.filter (fun r => r.user_id == viewer)).flatMap
    (fun r => (db.messages.filter (fun m => m.id == r.message_id)).map MessageRec.user_id)
  ((orderByCountDesc (groupCounts joined)).take limit).map Prod.fst

/-- Translation of find_frequently_stamped_channels_by (mariadb/stamp.rs). -/
def find_frequently_stamped_channels_by (db : Db) (viewer : Nat) (limit : Nat) : List Nat :=
  let joined := (db.reactions.filter (fun r => r.user_id == viewer)).flatMap
    (fun r => (db.messages.filter (fun m => m.id == r.message_id)).map MessageRec.channel_id)
  ((orderByCountDesc (groupCounts joined)).take limit).map Prod.fst

/-- Translation of find_similar_users (mariadb/user.rs): other reactors
on the messages the viewer reacted to, the viewer excluded by the WHERE
clause, ranked by co-occurrence count. -/
def find_similar_users (db : Db) (viewer : Nat) (limit : Nat) : List Nat :=
  let joined := (db.reactions.filter (fun r1 => r1.user_id == viewer)).flatMap
    (fun r1 => ((db.reactions.filter (fun r2 =>
      r2.message_id == r1.message_id && r2.user_id != viewer)).map ReactionRec.user_id))
  ((orderByCountDesc (groupCounts joined)).take limit).map Prod.fst

/-- Comparator behind ORDER BY created_at DESC. -/
def createdGe (a b : MessageRec) : Prop := b.created_at ≤ a.created_at

instance : DecidableRel createdGe := fun a b => by unfold createdGe; infer_instance

instance : IsTotal MessageRec createdGe := ⟨fun a b => le_total b.created_at a.created_at⟩

instance : IsTrans MessageRec createdGe := ⟨fun _ _ _ h1 h2 => le_trans h2 h1⟩

/-- WHERE clause of find_messages_by_author_allowlist: last 30 days,
author in the allowlist, not read by the viewer. Messages authored by
the viewer are not excluded here. -/
def authorAllowlistPool (db : Db) (authors : List Nat) (viewer : Nat) (now : Int) :
    List MessageRec :=
  db.messages.filter (fun m =>
    decide (now - hoursToSeconds (30 * 24) < m.created_at) &&
    decide (m.user_id ∈ authors) && decide (m.id ∉ readIds db viewer))

/-- Translation of find_messages_by_author_allowlist: empty allowlist
short-circuits, otherwise filter, order newest first, truncate,
hydrate. -/
def find_messages_by_author_allowlist (db : Db) (authors : List Nat) (limit : Nat)
    (viewer : Nat) (now : Int) : List MessageListItem :=
  if authors.isEmpty then []
  else hydrate db
    (((authorAllowlistPool db authors viewer now).insertionSort createdGe).take limit)

/-- WHERE clause of find_messages_by_channel_allowlist: last 30 days,
channel in the allowlist, not read by the viewer, not authored by the
viewer. -/
def channelAllowlistPool (db : Db) (channels : List Nat) (viewer : Nat) (now : Int) :
    List MessageRec :=
  db.messages.filter (fun m =>
    decide (now - hoursToSeconds (30 * 24) < m.created_at) &&
    decide (m.channel_id ∈ channels) && decide (m.id ∉ readIds db viewer) &&
    (m.user_id != viewer))

/-- Translation of find_messages_by_channel_allowlist. -/
def find_messages_by_channel_allowlist (db : Db) (channels : List Nat) (limit : Nat)
    (viewer : Nat) (now : Int) : List MessageListItem :=
  if channels.isEmpty then []
  else hydrate db
    (((channelAllowlistPool db channels viewer now).insertionSort createdGe).take limit)

/-- WHERE clause of find_top_reacted_messages: last 7 days, not authored
by the viewer, not read by the viewer. The ORDER BY is the real-valued
decayed score COUNT / POW(age + 2, 1.8), which the embedding leaves as
an unspecified permutation of this pool; no claim depends on that
rank order. -/
def topReactedPool (db : Db) (viewer : Nat) (now : Int) : List MessageRec :=
  db.messages.filter (fun m =>
    decide (now - hoursToSeconds (7 * 24) < m.created_at) &&
    (m.user_id != viewer) && decide (m.id ∉ readIds db viewer))

/-- Possible outputs of TimelineServiceImpl.get_recommended_messages over
a database: the three affinity lists feed the four candidate queries,
the top reacted ranking is any permutation of its pool, and the merge of
the four lists behaves as in IsRecommendedOutput. -/
def IsRecommendedDbOutput (db : Db) (viewer : Nat) (now : Int)
    (out : List MessageListItem) : Prop :=
  ∃ topOrder,
    List.Perm topOrder (topReactedPool db viewer now) ∧
    IsRecommendedOutput
      (hydrate db (topOrder.take 50))
      (find_messages_by_author_allowlist db
        (find_frequently_stamped_users_by db viewer 20) 50 viewer now)
      (find_messages_by_channel_allowlist db
        (find_frequently_stamped_channels_by db viewer 10) 50 viewer now)
      (find_messages_by_author_allowlist db (find_similar_users db viewer 20) 50 viewer now)
      out

/-! ### Provenance lemmas for the database queries -/

theorem fst_mem_bumpKey (l : List (Nat × Nat)) (k x : Nat) :
    x ∈ (bumpKey l k).map Prod.fst → x = k ∨ x ∈ l.map Prod.fst := by
  induction l with
  | nil =>
    intro h
    simp [bumpKey] at h
    exact Or.inl h
  | cons e rest ih =>
    intro h
    by_cases h1 : e.1 = k
    · simp only [bumpKey, if_pos h1, List.map_cons, List.mem_cons] at h
      rcases h with h | h
      · exact Or.inr (by simp [h])
      · exact Or.inr (by simp [h])
    · simp only [bumpKey, if_neg h1, List.map_cons, List.mem_cons] at h
      rcases h with h | h
      · exact Or.inr (by simp [h])
      · rcases ih h with h2 | h2
        · exact Or.inl h2
        · exact Or.inr (by simp [h2])

theorem mem_groupCounts_fold (keys : List Nat) :
    ∀ (acc : List (Nat × Nat)) (e : Nat × Nat),
      e ∈ List.foldl bumpKey acc keys → e.1 ∈ acc.map Prod.fst ∨ e.1 ∈ keys := by
  induction keys with
  | nil =>
    intro acc e h
    exact Or.inl (List.mem_map.2 ⟨e, by simpa using h, rfl⟩)
  | cons k rest ih =>
    intro acc e h
    rcases ih (bumpKey acc k) e h with h2 | h2
    · rcases fst_mem_bumpKey acc k e.1 h2 with h3 | h3
      · exact Or.inr (h3 ▸ List.mem_cons_self _ _)
      · exact Or.inl h3
    · exact Or.inr (List.mem_cons_of_mem _ h2)

/-- Keys surviving grouping, ranking and truncation come from the joined
key list. -/
theorem mem_rankedKeys (keys : List Nat) (lim : Nat) (u : Nat)
    (h : u ∈ ((orderByCountDesc (groupCounts keys)).take lim).map Prod.fst) :
    u ∈ keys := by
  rcases List.mem_map.1 h with ⟨e, he, rfl⟩
  have h2 : e ∈ groupCounts keys :=
    (List.perm_insertionSort countGe _).mem_iff.1 (List.mem_of_mem_take he)
  rcases mem_groupCounts_fold keys [] e h2 with h3 | h3
  · simp at h3
  · exact h3

/-- The similar users query never returns the viewer: the join filters
the viewer out before grouping. -/
theorem find_similar_users_not_self (db : Db) (viewer : Nat) (lim : Nat) :
    viewer ∉ find_similar_users db viewer lim := by
  intro hmem
  have hjoined := mem_rankedKeys _ lim viewer hmem
  rcases List.mem_flatMap.1 hjoined with ⟨r1, _, hr2⟩
  rcases List.mem_map.1 hr2 with ⟨r2, hr2mem, huid⟩
  have hpred := (List.mem_filter.1 hr2mem).2
  simp only [Bool.and_eq_true, bne_iff_ne, ne_eq] at hpred
  exact hpred.2 huid

theorem topReactedPool_props (db : Db) (viewer : Nat) (now : Int) (row : MessageRec)
    (h : row ∈ topReactedPool db viewer now) :
    row.user_id ≠ viewer ∧ row.id ∉ readIds db viewer := by
  have hpred := (List.mem_filter.1 h).2
  simp only [Bool.and_eq_true, decide_eq_true_eq, bne_iff_ne, ne_eq] at hpred
  exact ⟨by tauto, by tauto⟩

theorem authorAllowlistPool_props (db : Db) (authors : List Nat) (viewer : Nat)
    (now : Int) (row : MessageRec) (h : row ∈ authorAllowlistPool db authors viewer now) :
    row.user_id ∈ authors ∧ row.id ∉ readIds db viewer := by
  have hpred := (List.mem_filter.1 h).2
  simp only [Bool.and_eq_true, decide_eq_true_eq] at hpred
  exact ⟨by tauto, by tauto⟩

theorem channelAllowlistPool_props (db : Db) (channels : List Nat) (viewer : Nat)
    (now : Int) (row : MessageRec) (h : row ∈ channelAllowlistPool db channels viewer now) :
    row.user_id ≠ viewer ∧ row.id ∉ readIds db viewer := by
  have hpred := (List.mem_filter.1 h).2
  simp only [Bool.and_eq_true, decide_eq_true_eq, bne_iff_ne, ne_eq] at hpred
  exact ⟨by tauto, by tauto⟩

theorem mem_author_allowlist (db : Db) (authors : List Nat) (lim : Nat) (viewer : Nat)
    (now : Int) (item : MessageListItem)
    (h : item ∈ find_messages_by_author_allowlist db authors lim viewer now) :
    ∃ row, row ∈ authorAllowlistPool db authors viewer now ∧ item = hydrateRow db row := by
  unfold find_messages_by_author_allowlist at h
  by_cases hA : authors.isEmpty
  · rw [if_pos hA] at h
    simp at h
  · rw [if_neg hA] at h
    rcases List.mem_map.1 h with ⟨row, hrow, rfl⟩
    exact ⟨row, (List.perm_insertionSort createdGe _).mem_iff.1 (List.mem_of_mem_take hrow),
      rfl⟩

theorem mem_channel_allowlist (db : Db) (channels : List Nat) (lim : Nat) (viewer : Nat)
    (now : Int) (item : MessageListItem)
    (h : item ∈ find_messages_by_channel_allowlist db channels lim viewer now) :
    ∃ row, row ∈ channelAllowlistPool db channels viewer now ∧ item = hydrateRow db row := by
  unfold find_messages_by_channel_allowlist at h
  by_cases hC : channels.isEmpty
  · rw [if_pos hC] at h
    simp at h
  · rw [if_neg hC] at h
    rcases List.mem_map.1 h with ⟨row, hrow, rfl⟩
    exact ⟨row, (List.perm_insertionSort createdGe _).mem_iff.1 (List.mem_of_mem_take hrow),
      rfl⟩

/-! ### Claim C2: exclusion invariants of the recommendation output -/

/-- Database of the C2 example: the viewer (user 7) authored message 1
and reacted to it themself; nothing is read. -/
def c2Db : Db := ⟨[⟨1, 7, 5, "mine", 90, 90, 90⟩], [⟨1, 2, 7, 1⟩], [], [], [], []⟩

/-- The item the recommendation emits in the C2 example: the message
authored by the viewer. -/
def c2Item : MessageListItem := ⟨1, 7, none, 5, "mine", 90, 90, [⟨2, 7, 1⟩]⟩

/-- C2, counterexample. When the viewer has reacted to their own message,
find_frequently_stamped_users_by returns the viewer, and the author
allowlist query does not filter out viewer-authored rows, so the output
of get_recommended_messages contains an item whose author is the viewer
(here it is the whole output). -/
theorem C2_counterexample :
    IsRecommendedDbOutput c2Db 7 100 [c2Item] ∧ c2Item.user_id = 7 := by
  refine ⟨⟨[], by decide, _, List.Perm.refl _, ?_⟩, rfl⟩
  norm_num [find_messages_by_author_allowlist, find_messages_by_channel_allowlist,
    find_frequently_stamped_users_by, find_frequently_stamped_channels_by,
    find_similar_users, authorAllowlistPool, channelAllowlistPool, readIds,
    hydrate, hydrateRow, userFor, reactionsFor, ReactionRec.toReaction, groupCounts,
    bumpKey, orderByCountDesc, countGe, createdGe, List.insertionSort,
    List.orderedInsert, mergeScores, add_score, addScoreAux, upsertScore,
    selectRecommended, rankPairs, scoreGe, List.take_of_length_le, max_def,
    hoursToSeconds, c2Db, c2Item]

/-- C2, amended. Every item of every possible output of
get_recommended_messages is unread by the viewer; an item authored by
the viewer can only enter through the author allowlist, which happens
exactly when find_frequently_stamped_users_by lists the viewer (the
viewer reacted to an own message); the TOP and CHAN queries exclude
viewer-authored rows and find_similar_users never returns the viewer. -/
theorem C2_amended (db : Db) (viewer : Nat) (now : Int) (out : List MessageListItem)
    (h : IsRecommendedDbOutput db viewer now out) :
    (∀ item ∈ out, item.id ∉ readIds db viewer ∧
      (item.user_id = viewer → viewer ∈ find_frequently_stamped_users_by db viewer 20)) ∧
    (∀ lim, viewer ∉ find_similar_users db viewer lim) := by
  refine ⟨?_, fun lim => find_similar_users_not_self db viewer lim⟩
  intro item hitem
  rcases h with ⟨topOrder, hpermTop, values, hvals, rfl⟩
  rcases mem_selectRecommended values item hitem with ⟨q, hq⟩
  rcases List.mem_map.1 (hvals.mem_iff.1 hq) with ⟨entry, hentry, hsnd⟩
  have hit : entry.2.1 = item := by rw [hsnd]
  rcases mem_mergeScores _ _ _ _ entry hentry with hsrc | hsrc | hsrc | hsrc
  · rw [hit] at hsrc
    rcases List.mem_map.1 hsrc with ⟨row, hrow, rfl⟩
    have hrow2 : row ∈ topReactedPool db viewer now :=
      hpermTop.mem_iff.1 (List.mem_of_mem_take hrow)
    obtain ⟨hne, hread⟩ := topReactedPool_props db viewer now row hrow2
    exact ⟨hread, fun hv => absurd hv hne⟩
  · rw [hit] at hsrc
    rcases mem_author_allowlist db _ 50 viewer now item hsrc with ⟨row, hrow, rfl⟩
    obtain ⟨hin, hread⟩ := authorAllowlistPool_props db _ viewer now row hrow
    exact ⟨hread, fun hv => hv ▸ hin⟩
  · rw [hit] at hsrc
    rcases mem_channel_allowlist db _ 50 viewer now item hsrc with ⟨row, hrow, rfl⟩
    obtain ⟨hne, hread⟩ := channelAllowlistPool_props db _ viewer now row hrow
    exact ⟨hread, fun hv => absurd hv hne⟩
  · rw [hit] at hsrc
    rcases mem_author_allowlist db _ 50 viewer now item hsrc with ⟨row, hrow, rfl⟩
    obtain ⟨hin, hread⟩ := authorAllowlistPool_props db _ viewer now row hrow
    refine ⟨hread, fun hv => ?_⟩
    exact absurd (hv ▸ hin) (find_similar_users_not_self db viewer 20)

/-- Witness of C2_amended at the concrete database of the self-reaction
example. -/
theorem C2_amended_witness :
    (c2Item.id ∉ readIds c2Db 7 ∧
      (c2Item.user_id = 7 → 7 ∈ find_frequently_stamped_users_by c2Db 7 20)) ∧
    7 ∉ find_similar_users c2Db 7 20 := by
  have h := C2_amended c2Db 7 100 [c2Item]
    ⟨[], by decide, _, List.Perm.refl _, by
      norm_num [find_messages_by_author_allowlist, find_messages_by_channel_allowlist,
        find_frequently_stamped_users_by, find_frequently_stamped_channels_by,
        find_similar_users, authorAllowlistPool, channelAllowlistPool, readIds,
        hydrate, hydrateRow, userFor, reactionsFor, ReactionRec.toReaction, groupCounts,
        bumpKey, orderByCountDesc, countGe, createdGe, List.insertionSort,
        List.orderedInsert, mergeScores, add_score, addScoreAux, upsertScore,
        selectRecommended, rankPairs, scoreGe, List.take_of_length_le, max_def,
        hoursToSeconds, c2Db, c2Item]⟩
  exact ⟨h.1 c2Item (List.mem_singleton.mpr rfl), h.2 20⟩

end Twittra
